import Mathlib

/-!
Shallow embedding of the Smart-PDF-Splitter core (TypeScript sources under
`src/`): the data model (`types.ts`), the verification engine
(`src/services/pdfService.ts`, `verifyDocument`), the per-file routing
decision of `processQueue` and the naming resolver `getUniqueName`
(`src/App.tsx`), and the reference-table load validation
(`src/components/SettingsModal.tsx` / `DatabaseCard.tsx`).

TypeScript `number` confidence scores are modelled as rationals; JavaScript
string truthiness (`undefined` and `""` are falsy) is modelled explicitly.
Binary PDF payloads are outside the embedding: the splitting collaborator's
output is modelled by its list of produced pieces.
-/

namespace SmartPdfSplitter

/-- `OutputMode` from `types.ts`. -/
inductive OutputMode
  | flatten
  | by_original
  | by_date
  deriving DecidableEq, Repr

/-- `ModelType` from `types.ts`. -/
inductive ModelType
  | flash
  | pro
  deriving DecidableEq, Repr

/-- `VerificationStatus` from `types.ts`. -/
inductive VerificationStatus
  | verified
  | mismatch
  | not_found
  | unknown
  deriving DecidableEq, Repr

/-- `AppSettings` from `types.ts`; `minConfidence` is a rational in `[0,1]`. -/
structure AppSettings where
  outputMode : OutputMode
  includeOriginal : Bool
  manualReviewMode : Bool
  minConfidence : ℚ
  modelType : ModelType
  deriving DecidableEq, Repr

/-- `DbEntry` from `types.ts`: one record of the master reference table. -/
structure DbEntry where
  id : String
  orderId : String
  customers : String
  dateCreated : Option String
  deriving DecidableEq, Repr

/-- `DocumentSegment` from `types.ts`.  Optional TypeScript fields are
`Option`s; `confidence` is a rational. -/
structure DocumentSegment where
  startPage : Nat
  endPage : Nat
  deliveryId : String
  customerName : String
  customerId : Option String
  deliveryDate : String
  confidence : ℚ
  needsReview : Option Bool
  reviewReason : Option String
  verificationStatus : Option VerificationStatus
  dbMatch : Option DbEntry
  finalFilename : Option String
  deriving DecidableEq, Repr

/-- JavaScript truthiness of an optional string: `undefined` and `""` are
falsy, every other string is truthy. -/
def strTruthy : Option String → Bool
  | none => false
  | some s => s != ""

/-- `customerId.replace(/^#/, "")`: strip one leading `#` if present
(`verifyDocument`, `src/services/pdfService.ts:176`). -/
def stripHash (c : String) : String :=
  match c.data with
  | '#' :: rest => ⟨rest⟩
  | _ => c

/-- The review reason built in the `not_found` branch of `verifyDocument`
(`src/services/pdfService.ts:169`): appended after an existing truthy
reason with `" | "`, otherwise fresh. -/
def notFoundReason (segment : DocumentSegment) : String :=
  if strTruthy segment.reviewReason then
    segment.reviewReason.getD "" ++ " | Delivery ID \"" ++ segment.deliveryId ++
      "\" " ++ "not found in database"
  else
    "Delivery ID \"" ++ segment.deliveryId ++ "\" " ++ "not found in database"

/-- The review reason built in the `mismatch` branch of `verifyDocument`
(`src/services/pdfService.ts:182`). -/
def mismatchReason (segment : DocumentSegment) (dbRecord : DbEntry) : String :=
  "CRITICAL: Customer ID mismatch! AI extracted \"" ++ segment.customerId.getD "" ++
    "\" but database shows \"" ++ dbRecord.orderId ++
    "\" for this delivery. Please verify the document."

/-- `verifyDocument` from `src/services/pdfService.ts:156`.
Looks up the first record whose `id` equals the segment's `deliveryId`;
no record gives `not_found` with a forced review flag, a truthy
`customerId` whose `#`-stripped value differs from the record's `orderId`
gives `mismatch` with a forced review flag, and otherwise the segment is
`verified` with the database's customer name substituted. -/
def verifyDocument (segment : DocumentSegment) (database : List DbEntry) :
    DocumentSegment :=
  match database.find? (fun db => db.id == segment.deliveryId) with
  | none =>
    { segment with
        verificationStatus := some VerificationStatus.not_found
        needsReview := some true
        reviewReason := some (notFoundReason segment) }
  | some dbRecord =>
    if strTruthy segment.customerId &&
        (dbRecord.orderId != stripHash (segment.customerId.getD "")) then
      { segment with
          verificationStatus := some VerificationStatus.mismatch
          dbMatch := some dbRecord
          needsReview := some true
          reviewReason := some (mismatchReason segment dbRecord) }
    else
      { segment with
          verificationStatus := some VerificationStatus.verified
          dbMatch := some dbRecord
          customerName := dbRecord.customers
          needsReview := some (segment.needsReview.getD false)
          reviewReason := segment.reviewReason }

/-- `verifyDocuments` from `src/services/pdfService.ts:206`. -/
def verifyDocuments (segments : List DocumentSegment) (database : List DbEntry) :
    List DocumentSegment :=
  segments.map (fun segment => verifyDocument segment database)

/-- `ProcessingStatus` from `types.ts`. -/
inductive ProcessingStatus
  | idle
  | converting
  | analyzing
  | splitting
  | waiting_review
  | done
  | error
  deriving DecidableEq, Repr

/-- `HistoryItem` from `types.ts`. -/
structure HistoryItem where
  filename : String
  processedAt : Nat
  segments : List DocumentSegment
  deriving DecidableEq, Repr

/-- The identity of one queued `ProcessedFile` (`types.ts`): the fields of
the record that the per-file step of `processQueue` reads. -/
structure QueuedFile where
  originalName : String
  timestamp : Nat
  deriving DecidableEq, Repr

/-- One output piece of the splitting collaborator `splitPdf`
(`src/services/pdfService.ts:73`); the binary payload is outside the
embedding. -/
structure SplitPiece where
  filename : String
  deriving DecidableEq, Repr

/-- The outcome of the per-file step of `processQueue` (`src/App.tsx`):
the file's resulting status and segment list, the error text set with it,
and the `HistoryItem` appended by `addToHistory` (if any). -/
structure StepResult where
  status : ProcessingStatus
  segments : List DocumentSegment
  error : Option String
  history : Option HistoryItem
  deriving DecidableEq, Repr

/-- `needsForcedReview` from `src/App.tsx:209`: some segment has a truthy
`needsReview` or a confidence below the configured threshold. -/
def needsForcedReview (settings : AppSettings) (segments : List DocumentSegment) :
    Bool :=
  segments.any (fun s => s.needsReview.getD false || decide (s.confidence < settings.minConfidence))

/-- The per-file decision logic of `processQueue` (`src/App.tsx:180`–`257`),
as a function of the recognition collaborator's raw result (`none` models
a malformed non-array result) and the splitting collaborator's output
pieces.  Zero segments terminate in `done` with an empty-segment history
record; zero split pieces despite segments terminate in `error`; otherwise
manual mode or a forced review routes to `waiting_review`, and the
remaining case terminates in `done` with a history record. -/
def processFileStep (settings : AppSettings) (file : QueuedFile)
    (segmentsRaw : Option (List DocumentSegment)) (splitResults : List SplitPiece) :
    StepResult :=
  let segments := segmentsRaw.getD []
  if segments.isEmpty then
    { status := ProcessingStatus.done
      segments := []
      error := some "No documents identified"
      history := some ⟨file.originalName, file.timestamp, []⟩ }
  else if splitResults.isEmpty then
    { status := ProcessingStatus.error
      segments := segments
      error := some "Invalid page ranges or empty documents"
      history := none }
  else if settings.manualReviewMode || needsForcedReview settings segments then
    { status := ProcessingStatus.waiting_review
      segments := segments
      error := none
      history := none }
  else
    { status := ProcessingStatus.done
      segments := segments
      error := none
      history := some ⟨file.originalName, file.timestamp, segments⟩ }

/-- A raw record of a parsed reference-table JSON array, before validation:
each required field may be absent (or may hold a falsy empty string). -/
structure RawRecord where
  id : Option String
  orderId : Option String
  customers : Option String
  dateCreated : Option String
  deriving DecidableEq, Repr

/-- A parsed reference-table load input: either not an array, or an array
of raw records (`handleFileUpload`, `src/components/SettingsModal.tsx:20`
and `src/components/DatabaseCard.tsx:17`). -/
inductive RefLoadInput
  | notArray
  | arr (records : List RawRecord)
  deriving DecidableEq, Repr

/-- The validation `record.id && record.orderId && record.customers` of
`handleFileUpload`: every required field is truthy. -/
def validRecord (r : RawRecord) : Bool :=
  strTruthy r.id && strTruthy r.orderId && strTruthy r.customers

/-- A validated raw record as the `DbEntry` handed to `onDatabaseUpdate`. -/
def toDbEntry (r : RawRecord) : DbEntry :=
  ⟨r.id.getD "", r.orderId.getD "", r.customers.getD "", r.dateCreated⟩

/-- The reference table resulting from `handleFileUpload`
(`src/components/SettingsModal.tsx:20`, identical in
`src/components/DatabaseCard.tsx:17`): a non-array input or any record
failing validation rejects the load and keeps the current table; a
well-formed array fully replaces it. -/
def loadReference (current : List DbEntry) (input : RefLoadInput) : List DbEntry :=
  match input with
  | RefLoadInput.notArray => current
  | RefLoadInput.arr records =>
    if records.all validRecord then records.map toDbEntry else current

/-- `filename.replace(/\.pdf$/i, "")` (`src/App.tsx:303`): strip a trailing
`.pdf`, matched case-insensitively, from the candidate name. -/
def stripPdfExt (s : String) : String :=
  if (".pdf".data).isSuffixOf (s.data.map Char.toLower) then
    ⟨s.data.take (s.data.length - 4)⟩
  else
    s

/-- The sequence of names the `while` loop of `getUniqueName`
(`src/App.tsx:306`) tries: first the candidate itself, then the stripped
base name suffixed with `_(counter).pdf` for `counter = 1, 2, ...`. -/
def candName (filename : String) : Nat → String
  | 0 => filename
  | Nat.succ k =>
    stripPdfExt filename ++ "_(" ++ Nat.repr (Nat.succ k) ++ ").pdf"

/-- The `while (usedNames.has(uniqueName))` loop of `getUniqueName`
(`src/App.tsx:306`), with explicit fuel: return the first tried name not
in the folder's used set.  `getUniqueName` supplies enough fuel for the
loop to reach a free name. -/
def resolveGo (used : List String) (filename : String) : Nat → Nat → String
  | 0, n => candName filename n
  | Nat.succ fuel, n =>
    if candName filename n ∈ used then resolveGo used filename fuel (n + 1)
    else candName filename n

/-- A name scope (`Map<FolderName, Set<Filenames>>`, `src/App.tsx:67`):
the set of names already reserved per folder, as a total map defaulting to
the empty set. -/
def NameScope : Type := String → List String

/-- The empty name scope: no folder has reserved names. -/
def NameScope.empty : NameScope := fun _ => []

/-- `getUniqueName` from `src/App.tsx:295`: look up the folder's used-name
set (created empty if absent), run the collision loop, reserve the
resulting name in the folder, and return it with the updated scope. -/
def getUniqueName (scope : NameScope) (folder filename : String) :
    String × NameScope :=
  let used := scope folder
  let uniqueName := resolveGo used filename (used.length + 2) 0
  (uniqueName, fun f => if f = folder then uniqueName :: used else scope f)

/-- The scope after `n` repeated requests of the same candidate `filename`
in the same `folder`, starting from the empty scope. -/
def repeatedScope (folder filename : String) : Nat → NameScope
  | 0 => NameScope.empty
  | Nat.succ k => (getUniqueName (repeatedScope folder filename k) folder filename).2

theorem find?_ref_of_nodup (db : List DbEntry) (key : String) (r : DbEntry)
    (hmem : r ∈ db) (hid : r.id = key) (hnodup : (db.map DbEntry.id).Nodup) :
    db.find? (fun e => e.id == key) = some r := by
  induction db with
  | nil => cases hmem
  | cons a tl ih =>
    rw [List.map_cons, List.nodup_cons] at hnodup
    rcases List.mem_cons.mp hmem with h | h
    · subst h
      simp [List.find?_cons, hid]
    · have hrid : r.id ∈ tl.map DbEntry.id := List.mem_map_of_mem DbEntry.id h
      have hane : (a.id == key) = false := by
        simp only [beq_eq_false_iff_ne, ne_eq]
        intro he
        rw [hid, ← he] at hrid
        exact hnodup.1 hrid
      rw [List.find?_cons, hane]
      exact ih h hnodup.2

/-- Claim C10: for every segment and every reference table, `verifyDocument`
leaves the page range, delivery identifier, customer identifier, delivery
date and confidence unchanged, and touches the customer name only when the
outcome is `verified`. -/
theorem claim10_verify_frame (s : DocumentSegment) (db : List DbEntry) :
    (verifyDocument s db).startPage = s.startPage ∧
    (verifyDocument s db).endPage = s.endPage ∧
    (verifyDocument s db).deliveryId = s.deliveryId ∧
    (verifyDocument s db).customerId = s.customerId ∧
    (verifyDocument s db).deliveryDate = s.deliveryDate ∧
    (verifyDocument s db).confidence = s.confidence ∧
    ((verifyDocument s db).customerName = s.customerName ∨
      (verifyDocument s db).verificationStatus = some VerificationStatus.verified) := by
  unfold verifyDocument
  cases db.find? (fun e => e.id == s.deliveryId) with
  | none => simp
  | some r =>
    by_cases hc :
        (strTruthy s.customerId && (r.orderId != stripHash (s.customerId.getD ""))) = true
    · simp [hc]
    · simp only [Bool.not_eq_true] at hc
      simp [hc]

/-- Claim C1 counterexample: with the empty reference table,
`verifyDocument` does not return outcome `unknown`, and it changes the
segment's review flag and reason. -/
theorem claim1_counterexample :
    (verifyDocument
        ⟨1, 2, "INV-1", "Jon", some "#12", "2024-01-01", 1, none, none, none, none, none⟩
        []).verificationStatus ≠ some VerificationStatus.unknown ∧
    (verifyDocument
        ⟨1, 2, "INV-1", "Jon", some "#12", "2024-01-01", 1, none, none, none, none, none⟩
        []).needsReview ≠
      (⟨1, 2, "INV-1", "Jon", some "#12", "2024-01-01", 1, none, none, none, none,
        none⟩ : DocumentSegment).needsReview := by
  decide

/-- Claim C1 (amended): for every segment, `verifyDocument` with an empty
reference table returns outcome `not_found` (not `unknown`), forces the
review flag to true, and appends a review reason noting the identifier was
not found; the customer name is unchanged. -/
theorem claim1_empty_table (s : DocumentSegment) :
    (verifyDocument s []).verificationStatus = some VerificationStatus.not_found ∧
    (verifyDocument s []).needsReview = some true ∧
    (verifyDocument s []).customerName = s.customerName ∧
    (verifyDocument s []).reviewReason = some (notFoundReason s) ∧
    ∃ p, notFoundReason s = p ++ "not found in database" := by
  refine ⟨rfl, rfl, rfl, rfl, ?_⟩
  unfold notFoundReason
  split
  · exact ⟨_, rfl⟩
  · exact ⟨_, rfl⟩

/-- Claim C3: a segment whose delivery identifier matches a reference
record and whose customer identifier (when present, after stripping a
leading `#`) equals that record's secondary identifier is `verified`: the
matched record is attached, the customer name is replaced by the record's
authoritative name, and a pre-existing AI review flag and reason are
preserved. -/
theorem claim3_verified_match (s : DocumentSegment) (db : List DbEntry) (r : DbEntry)
    (hmem : r ∈ db) (hid : r.id = s.deliveryId)
    (hnodup : (db.map DbEntry.id).Nodup)
    (hcid : ∀ c, s.customerId = some c → stripHash c = r.orderId) :
    (verifyDocument s db).verificationStatus = some VerificationStatus.verified ∧
    (verifyDocument s db).dbMatch = some r ∧
    (verifyDocument s db).customerName = r.customers ∧
    (verifyDocument s db).needsReview = some (s.needsReview.getD false) ∧
    (verifyDocument s db).reviewReason = s.reviewReason := by
  have hfind := find?_ref_of_nodup db s.deliveryId r hmem hid hnodup
  unfold verifyDocument
  rw [hfind]
  have hguard :
      (strTruthy s.customerId && (r.orderId != stripHash (s.customerId.getD ""))) = false := by
    cases hcv : s.customerId with
    | none => simp [strTruthy]
    | some c =>
      by_cases hce : c = ""
      · simp [strTruthy, hcv, hce]
      · have := hcid c hcv
        simp [strTruthy, hcv, hce, Option.getD, this]
  simp [hguard]

/-- Claim C4: a segment whose delivery identifier matches a reference
record but whose present (non-empty) customer identifier differs, after
stripping a leading `#`, from that record's secondary identifier gets
outcome `mismatch` with the review flag forced to true, whatever its
confidence score. -/
theorem claim4_mismatch (s : DocumentSegment) (db : List DbEntry) (r : DbEntry)
    (c : String) (hmem : r ∈ db) (hid : r.id = s.deliveryId)
    (hnodup : (db.map DbEntry.id).Nodup)
    (hc : s.customerId = some c) (hcne : c ≠ "")
    (hdiff : stripHash c ≠ r.orderId) :
    (verifyDocument s db).verificationStatus = some VerificationStatus.mismatch ∧
    (verifyDocument s db).needsReview = some true ∧
    (verifyDocument s db).dbMatch = some r := by
  have hfind := find?_ref_of_nodup db s.deliveryId r hmem hid hnodup
  unfold verifyDocument
  rw [hfind]
  have hguard :
      (strTruthy s.customerId && (r.orderId != stripHash (s.customerId.getD ""))) = true := by
    simp [strTruthy, hc, hcne, Option.getD, Ne.symm hdiff]
  simp [hguard]

/-- Claim C5: a segment whose delivery identifier matches no reference
record gets outcome `not_found` with the review flag forced to true and a
review reason noting the identifier was not found. -/
theorem claim5_not_found (s : DocumentSegment) (db : List DbEntry)
    (habs : ∀ r ∈ db, r.id ≠ s.deliveryId) :
    (verifyDocument s db).verificationStatus = some VerificationStatus.not_found ∧
    (verifyDocument s db).needsReview = some true ∧
    (verifyDocument s db).reviewReason = some (notFoundReason s) ∧
    ∃ p, notFoundReason s = p ++ "not found in database" := by
  have hfind : db.find? (fun e => e.id == s.deliveryId) = none := by
    rw [List.find?_eq_none]
    intro r hr
    simp [habs r hr]
  unfold verifyDocument
  rw [hfind]
  refine ⟨rfl, rfl, rfl, ?_⟩
  unfold notFoundReason
  split
  · exact ⟨_, rfl⟩
  · exact ⟨_, rfl⟩

/-- Witness for C3 at the spec's example: table `[{id "INV-1", orderId "12",
customers "Acme"}]` and a segment carrying customer identifier `"#12"`. -/
theorem claim3_witness :
    (verifyDocument
        ⟨1, 2, "INV-1", "Jon", some "#12", "2024-01-15", 95 / 100, none, none, none,
          none, none⟩
        [⟨"INV-1", "12", "Acme", none⟩]).verificationStatus =
      some VerificationStatus.verified ∧
    (verifyDocument
        ⟨1, 2, "INV-1", "Jon", some "#12", "2024-01-15", 95 / 100, none, none, none,
          none, none⟩
        [⟨"INV-1", "12", "Acme", none⟩]).dbMatch = some ⟨"INV-1", "12", "Acme", none⟩ ∧
    (verifyDocument
        ⟨1, 2, "INV-1", "Jon", some "#12", "2024-01-15", 95 / 100, none, none, none,
          none, none⟩
        [⟨"INV-1", "12", "Acme", none⟩]).customerName = "Acme" ∧
    (verifyDocument
        ⟨1, 2, "INV-1", "Jon", some "#12", "2024-01-15", 95 / 100, none, none, none,
          none, none⟩
        [⟨"INV-1", "12", "Acme", none⟩]).needsReview = some false ∧
    (verifyDocument
        ⟨1, 2, "INV-1", "Jon", some "#12", "2024-01-15", 95 / 100, none, none, none,
          none, none⟩
        [⟨"INV-1", "12", "Acme", none⟩]).reviewReason = none := by
  exact claim3_verified_match
    ⟨1, 2, "INV-1", "Jon", some "#12", "2024-01-15", 95 / 100, none, none, none, none,
      none⟩
    [⟨"INV-1", "12", "Acme", none⟩] ⟨"INV-1", "12", "Acme", none⟩
    (by decide) (by decide) (by decide)
    (by intro c hc; injection hc with h; subst h; decide)

/-- Witness for C4 at the spec's example: same table, incoming customer
identifier `"#99"` with high confidence. -/
theorem claim4_witness :
    (verifyDocument
        ⟨1, 2, "INV-1", "Jon", some "#99", "2024-01-15", 95 / 100, none, none, none,
          none, none⟩
        [⟨"INV-1", "12", "Acme", none⟩]).verificationStatus =
      some VerificationStatus.mismatch ∧
    (verifyDocument
        ⟨1, 2, "INV-1", "Jon", some "#99", "2024-01-15", 95 / 100, none, none, none,
          none, none⟩
        [⟨"INV-1", "12", "Acme", none⟩]).needsReview = some true ∧
    (verifyDocument
        ⟨1, 2, "INV-1", "Jon", some "#99", "2024-01-15", 95 / 100, none, none, none,
          none, none⟩
        [⟨"INV-1", "12", "Acme", none⟩]).dbMatch = some ⟨"INV-1", "12", "Acme", none⟩ := by
  exact claim4_mismatch
    ⟨1, 2, "INV-1", "Jon", some "#99", "2024-01-15", 95 / 100, none, none, none, none,
      none⟩
    [⟨"INV-1", "12", "Acme", none⟩] ⟨"INV-1", "12", "Acme", none⟩ "#99"
    (by decide) (by decide) (by decide) rfl (by decide) (by decide)

/-- Witness for C5: a delivery identifier absent from a non-empty table. -/
theorem claim5_witness :
    (verifyDocument
        ⟨1, 2, "INV-9", "Jon", some "#12", "2024-01-15", 95 / 100, none, none, none,
          none, none⟩
        [⟨"INV-1", "12", "Acme", none⟩]).verificationStatus =
      some VerificationStatus.not_found ∧
    (verifyDocument
        ⟨1, 2, "INV-9", "Jon", some "#12", "2024-01-15", 95 / 100, none, none, none,
          none, none⟩
        [⟨"INV-1", "12", "Acme", none⟩]).needsReview = some true ∧
    (verifyDocument
        ⟨1, 2, "INV-9", "Jon", some "#12", "2024-01-15", 95 / 100, none, none, none,
          none, none⟩
        [⟨"INV-1", "12", "Acme", none⟩]).reviewReason =
      some (notFoundReason
        ⟨1, 2, "INV-9", "Jon", some "#12", "2024-01-15", 95 / 100, none, none, none,
          none, none⟩) ∧
    ∃ p,
      notFoundReason
        ⟨1, 2, "INV-9", "Jon", some "#12", "2024-01-15", 95 / 100, none, none, none,
          none, none⟩ = p ++ "not found in database" := by
  exact claim5_not_found
    ⟨1, 2, "INV-9", "Jon", some "#12", "2024-01-15", 95 / 100, none, none, none, none,
      none⟩
    [⟨"INV-1", "12", "Acme", none⟩] (by decide)

/-- Claim C2, evaluated at the failing input: `verifyDocument` would give
the example segment (delivery `"INV-1"`, customer identifier `"#99"`,
confidence `0.95`, against table `[{id "INV-1", orderId "12", customers
"Acme"}]`) outcome `mismatch`, so the claim requires `waiting_review`; but
`processQueue` never invokes verification — its routing reads the raw
recognition segments, whose `needsReview` is absent and whose confidence
`0.95` clears the `0.8` threshold — so in automatic mode the file reaches
`done`, not `waiting_review`. -/
theorem claim2_missing_verification :
    (verifyDocument
        ⟨1, 2, "INV-1", "Jon", some "#99", "2024-01-15", 95 / 100, none, none, none,
          none, none⟩
        [⟨"INV-1", "12", "Acme", none⟩]).verificationStatus =
      some VerificationStatus.mismatch ∧
    (processFileStep ⟨OutputMode.by_date, false, false, 4 / 5, ModelType.flash⟩
        ⟨"scan.pdf", 7⟩
        (some [⟨1, 2, "INV-1", "Jon", some "#99", "2024-01-15", 95 / 100, none, none,
          none, none, none⟩])
        [⟨"INV1_2024-01-15_Jon_99.pdf"⟩]).status = ProcessingStatus.done ∧
    (processFileStep ⟨OutputMode.by_date, false, false, 4 / 5, ModelType.flash⟩
        ⟨"scan.pdf", 7⟩
        (some [⟨1, 2, "INV-1", "Jon", some "#99", "2024-01-15", 95 / 100, none, none,
          none, none, none⟩])
        [⟨"INV1_2024-01-15_Jon_99.pdf"⟩]).status ≠ ProcessingStatus.waiting_review := by
  have hforce : needsForcedReview
      ⟨OutputMode.by_date, false, false, 4 / 5, ModelType.flash⟩
      [⟨1, 2, "INV-1", "Jon", some "#99", "2024-01-15", 95 / 100, none, none, none,
        none, none⟩] = false := by
    simp only [needsForcedReview, List.any_cons, List.any_nil, Option.getD_none,
      Bool.false_or, Bool.or_false, decide_eq_false_iff_not]
    norm_num
  refine ⟨by decide, ?_, ?_⟩ <;>
    simp [processFileStep, hforce]

/-- Claim C7: a file whose recognition call returns an empty array, or a
malformed non-array result normalized to empty, terminates in `done` with
an empty segment list and an appended history record with no segments —
never in `error`. -/
theorem claim7_empty_recognition (settings : AppSettings) (file : QueuedFile)
    (segmentsRaw : Option (List DocumentSegment)) (splitResults : List SplitPiece)
    (h : segmentsRaw = none ∨ segmentsRaw = some []) :
    (processFileStep settings file segmentsRaw splitResults).status =
      ProcessingStatus.done ∧
    (processFileStep settings file segmentsRaw splitResults).segments = [] ∧
    (processFileStep settings file segmentsRaw splitResults).history =
      some ⟨file.originalName, file.timestamp, []⟩ ∧
    (processFileStep settings file segmentsRaw splitResults).status ≠
      ProcessingStatus.error := by
  rcases h with rfl | rfl <;> simp [processFileStep]

/-- Witness for C7 at a concrete malformed recognition result. -/
theorem claim7_witness :
    (processFileStep ⟨OutputMode.by_date, false, true, 4 / 5, ModelType.flash⟩
        ⟨"scan.pdf", 7⟩ none []).status = ProcessingStatus.done ∧
    (processFileStep ⟨OutputMode.by_date, false, true, 4 / 5, ModelType.flash⟩
        ⟨"scan.pdf", 7⟩ none []).segments = [] ∧
    (processFileStep ⟨OutputMode.by_date, false, true, 4 / 5, ModelType.flash⟩
        ⟨"scan.pdf", 7⟩ none []).history = some ⟨"scan.pdf", 7, []⟩ ∧
    (processFileStep ⟨OutputMode.by_date, false, true, 4 / 5, ModelType.flash⟩
        ⟨"scan.pdf", 7⟩ none []).status ≠ ProcessingStatus.error := by
  exact claim7_empty_recognition ⟨OutputMode.by_date, false, true, 4 / 5, ModelType.flash⟩
    ⟨"scan.pdf", 7⟩ none [] (Or.inl rfl)

/-- Claim C8: a file with a non-empty recognized segment list whose split
call returns zero output pieces terminates in `error` — not
`waiting_review`, not `done` — and no history record is appended. -/
theorem claim8_degenerate_split (settings : AppSettings) (file : QueuedFile)
    (segmentsRaw : Option (List DocumentSegment))
    (hne : segmentsRaw.getD [] ≠ []) :
    (processFileStep settings file segmentsRaw []).status = ProcessingStatus.error ∧
    (processFileStep settings file segmentsRaw []).status ≠
      ProcessingStatus.waiting_review ∧
    (processFileStep settings file segmentsRaw []).status ≠ ProcessingStatus.done ∧
    (processFileStep settings file segmentsRaw []).history = none := by
  have hempty : (segmentsRaw.getD []).isEmpty = false := by
    rcases h : segmentsRaw.getD [] with _ | _
    · exact absurd h hne
    · rfl
  unfold processFileStep
  simp [hempty]

/-- Witness for C8 at a concrete one-segment recognition result. -/
theorem claim8_witness :
    (processFileStep ⟨OutputMode.by_date, false, true, 4 / 5, ModelType.flash⟩
        ⟨"scan.pdf", 7⟩
        (some [⟨1, 2, "INV-1", "Jon", some "#12", "2024-01-15", 95 / 100, none, none,
          none, none, none⟩]) []).status = ProcessingStatus.error ∧
    (processFileStep ⟨OutputMode.by_date, false, true, 4 / 5, ModelType.flash⟩
        ⟨"scan.pdf", 7⟩
        (some [⟨1, 2, "INV-1", "Jon", some "#12", "2024-01-15", 95 / 100, none, none,
          none, none, none⟩]) []).status ≠ ProcessingStatus.waiting_review ∧
    (processFileStep ⟨OutputMode.by_date, false, true, 4 / 5, ModelType.flash⟩
        ⟨"scan.pdf", 7⟩
        (some [⟨1, 2, "INV-1", "Jon", some "#12", "2024-01-15", 95 / 100, none, none,
          none, none, none⟩]) []).status ≠ ProcessingStatus.done ∧
    (processFileStep ⟨OutputMode.by_date, false, true, 4 / 5, ModelType.flash⟩
        ⟨"scan.pdf", 7⟩
        (some [⟨1, 2, "INV-1", "Jon", some "#12", "2024-01-15", 95 / 100, none, none,
          none, none, none⟩]) []).history = none := by
  exact claim8_degenerate_split ⟨OutputMode.by_date, false, true, 4 / 5, ModelType.flash⟩
    ⟨"scan.pdf", 7⟩
    (some [⟨1, 2, "INV-1", "Jon", some "#12", "2024-01-15", 95 / 100, none, none, none,
      none, none⟩]) (by decide)

/-- Claim C9: a reference-table load input that is not an array, or whose
array contains a record missing (or carrying a falsy empty value for) the
primary identifier, secondary identifier, or authoritative name field, is
rejected with the previously active table kept; a well-formed input fully
replaces the active table. -/
theorem claim9_reference_load (current : List DbEntry) :
    loadReference current RefLoadInput.notArray = current ∧
    (∀ records, (∃ r ∈ records, validRecord r = false) →
      loadReference current (RefLoadInput.arr records) = current) ∧
    (∀ records, records.all validRecord = true →
      loadReference current (RefLoadInput.arr records) = records.map toDbEntry) := by
  refine ⟨rfl, ?_, ?_⟩
  · intro records ⟨r, hmem, hbad⟩
    have hall : records.all validRecord = false := by
      rw [List.all_eq_false]
      exact ⟨r, hmem, by simp [hbad]⟩
    unfold loadReference
    simp [hall]
  · intro records hall
    unfold loadReference
    simp [hall]

/-- Witness for C9: a record missing its `orderId` is rejected keeping the
current table; a well-formed single-record array replaces it. -/
theorem claim9_witness :
    loadReference [⟨"INV-1", "12", "Acme", none⟩] RefLoadInput.notArray =
      [⟨"INV-1", "12", "Acme", none⟩] ∧
    loadReference [⟨"INV-1", "12", "Acme", none⟩]
        (RefLoadInput.arr [⟨some "DLV-1", none, some "John", none⟩]) =
      [⟨"INV-1", "12", "Acme", none⟩] ∧
    loadReference [⟨"INV-1", "12", "Acme", none⟩]
        (RefLoadInput.arr [⟨some "DLV-2", some "8971", some "John", some "2024-01-15"⟩]) =
      [⟨"DLV-2", "8971", "John", some "2024-01-15"⟩] := by
  have h := claim9_reference_load [⟨"INV-1", "12", "Acme", none⟩]
  exact ⟨h.1,
    h.2.1 [⟨some "DLV-1", none, some "John", none⟩]
      ⟨⟨some "DLV-1", none, some "John", none⟩, by decide, by decide⟩,
    h.2.2 [⟨some "DLV-2", some "8971", some "John", some "2024-01-15"⟩] (by decide)⟩

/-- The numeric value of one decimal digit character. -/
def charDigitVal (c : Char) : Nat := c.toNat - '0'.toNat

/-- The numeric value of a decimal digit string, most significant first. -/
def digitsVal (l : List Char) : Nat := l.foldl (fun a c => a * 10 + charDigitVal c) 0

theorem toDigitsCore_acc (fuel n : Nat) (ds : List Char) :
    Nat.toDigitsCore 10 fuel n ds = Nat.toDigitsCore 10 fuel n [] ++ ds := by
  induction fuel generalizing n ds with
  | zero => rfl
  | succ f ih =>
    simp only [Nat.toDigitsCore]
    by_cases h : n / 10 = 0
    · simp [h]
    · simp only [h, if_false]
      rw [ih (n / 10) (Nat.digitChar (n % 10) :: ds), ih (n / 10) [Nat.digitChar (n % 10)]]
      simp

theorem digitsVal_append_digit (l : List Char) (c : Char) :
    digitsVal (l ++ [c]) = digitsVal l * 10 + charDigitVal c := by
  unfold digitsVal
  rw [List.foldl_append]
  rfl

theorem charDigitVal_digitChar : ∀ m, m < 10 → charDigitVal (Nat.digitChar m) = m := by
  decide

theorem digitsVal_toDigitsCore (fuel : Nat) :
    ∀ n, n < fuel → digitsVal (Nat.toDigitsCore 10 fuel n []) = n := by
  induction fuel with
  | zero => intro n h; omega
  | succ f ih =>
    intro n h
    simp only [Nat.toDigitsCore]
    by_cases h10 : n / 10 = 0
    · have hlt : n < 10 := by
        rcases Nat.lt_or_ge n 10 with h' | h'
        · exact h'
        · exact absurd h10 (by
            have : 1 ≤ n / 10 := (Nat.le_div_iff_mul_le (by norm_num)).mpr (by omega)
            omega)
      simp only [h10, if_true]
      show digitsVal [Nat.digitChar (n % 10)] = n
      unfold digitsVal
      simp only [List.foldl_cons, List.foldl_nil, Nat.zero_mul, Nat.zero_add]
      rw [charDigitVal_digitChar (n % 10) (Nat.mod_lt n (by norm_num))]
      exact Nat.mod_eq_of_lt hlt
    · have hpos : 0 < n := by
        rcases Nat.eq_zero_or_pos n with rfl | h'
        · simp at h10
        · exact h'
      have hdivlt : n / 10 < f := by
        have h1 : n / 10 < n := Nat.div_lt_self hpos (by norm_num)
        omega
      simp only [h10, if_false]
      rw [toDigitsCore_acc, digitsVal_append_digit, ih (n / 10) hdivlt,
        charDigitVal_digitChar (n % 10) (Nat.mod_lt n (by norm_num))]
      have := Nat.div_add_mod n 10
      omega

theorem natRepr_injective : Function.Injective Nat.repr := by
  intro m n h
  have hdata : Nat.toDigits 10 m = Nat.toDigits 10 n := congrArg String.data h
  have hm : digitsVal (Nat.toDigits 10 m) = m :=
    digitsVal_toDigitsCore (m + 1) m (Nat.lt_succ_self m)
  have hn : digitsVal (Nat.toDigits 10 n) = n :=
    digitsVal_toDigitsCore (n + 1) n (Nat.lt_succ_self n)
  rw [← hm, hdata, hn]

theorem toDigits_ne_nil (n : Nat) : Nat.toDigits 10 n ≠ [] := by
  show Nat.toDigitsCore 10 (n + 1) n [] ≠ []
  simp only [Nat.toDigitsCore]
  by_cases h : n / 10 = 0
  · simp [h]
  · simp only [h, if_false]
    rw [toDigitsCore_acc]
    simp

theorem natRepr_length_pos (n : Nat) : 1 ≤ (Nat.repr n).data.length := by
  have h : (Nat.repr n).data = Nat.toDigits 10 n := rfl
  rw [h]
  cases hd : Nat.toDigits 10 n with
  | nil => exact absurd hd (toDigits_ne_nil n)
  | cons a l => simp

theorem stripPdfExt_length (s : String) :
    s.data.length ≤ (stripPdfExt s).data.length + 4 := by
  unfold stripPdfExt
  by_cases h : (".pdf".data).isSuffixOf (s.data.map Char.toLower) = true
  · simp only [h, if_true]
    show s.data.length ≤ (s.data.take (s.data.length - 4)).length + 4
    rw [List.length_take]
    omega
  · simp only [Bool.not_eq_true] at h
    simp [h]

theorem candName_succ_data (filename : String) (k : Nat) :
    (candName filename (k + 1)).data =
      (stripPdfExt filename).data ++
        ("_(".data ++ ((Nat.repr (k + 1)).data ++ (").pdf".data))) := by
  show (stripPdfExt filename ++ "_(" ++ Nat.repr (k + 1) ++ ").pdf").data = _
  simp [List.append_assoc]

theorem candName_succ_length (filename : String) (k : Nat) :
    (candName filename (k + 1)).data.length =
      (stripPdfExt filename).data.length + 7 + (Nat.repr (k + 1)).data.length := by
  rw [candName_succ_data]
  simp only [List.length_append, List.length_cons, List.length_nil]
  omega

theorem candName_injective (filename : String) :
    Function.Injective (candName filename) := by
  have hzero_ne : ∀ k, candName filename 0 ≠ candName filename (k + 1) := by
    intro k h
    have hlen := congrArg (fun s => s.data.length) h
    simp only at hlen
    rw [candName_succ_length] at hlen
    have h4 := stripPdfExt_length filename
    have hr := natRepr_length_pos (k + 1)
    have h0 : (candName filename 0).data.length = filename.data.length := rfl
    omega
  intro i j h
  match i, j with
  | 0, 0 => rfl
  | 0, k + 1 => exact absurd h (hzero_ne k)
  | k + 1, 0 => exact absurd h.symm (hzero_ne k)
  | i + 1, j + 1 =>
    have hdata := congrArg String.data h
    rw [candName_succ_data, candName_succ_data] at hdata
    have h1 := List.append_cancel_left hdata
    have h2 := List.append_cancel_left h1
    have h3 := List.append_cancel_right h2
    have h4 : Nat.repr (i + 1) = Nat.repr (j + 1) := by
      cases hri : Nat.repr (i + 1) with
      | mk d1 =>
        cases hrj : Nat.repr (j + 1) with
        | mk d2 =>
          rw [hri, hrj] at h3
          simp only at h3
          rw [h3]
    exact natRepr_injective h4

theorem exists_free_cand (used : List String) (filename : String) :
    ∃ i, i < used.length + 2 ∧ candName filename i ∉ used := by
  by_contra hcon
  push_neg at hcon
  have hsub : (List.range (used.length + 2)).map (candName filename) ⊆ used := by
    intro x hx
    obtain ⟨i, hi, rfl⟩ := List.mem_map.mp hx
    exact hcon i (List.mem_range.mp hi)
  have hnd : ((List.range (used.length + 2)).map (candName filename)).Nodup :=
    (List.nodup_range _).map (candName_injective filename)
  have hle := (hnd.subperm hsub).length_le
  simp only [List.length_map, List.length_range] at hle
  omega

theorem resolveGo_spec_exact (used : List String) (filename : String) :
    ∀ fuel k n, (∀ i, i < k → candName filename (n + i) ∈ used) →
      candName filename (n + k) ∉ used → k < fuel →
      resolveGo used filename fuel n = candName filename (n + k) := by
  intro fuel
  induction fuel with
  | zero => intro k n _ _ hk; omega
  | succ f ih =>
    intro k n hbefore hfree hk
    cases k with
    | zero =>
      simp only [Nat.add_zero] at hfree
      simp only [resolveGo, if_neg hfree, Nat.add_zero]
    | succ j =>
      have h0 : candName filename n ∈ used := by
        have := hbefore 0 (Nat.succ_pos j)
        simpa using this
      simp only [resolveGo, if_pos h0]
      have hbefore' : ∀ i, i < j → candName filename (n + 1 + i) ∈ used := by
        intro i hi
        have h2 := hbefore (i + 1) (by omega)
        have he : n + (i + 1) = n + 1 + i := by omega
        rwa [he] at h2
      have hfree' : candName filename (n + 1 + j) ∉ used := by
        have he : n + (j + 1) = n + 1 + j := by omega
        rwa [he] at hfree
      rw [ih j (n + 1) hbefore' hfree' (by omega)]
      congr 1
      omega

theorem resolveGo_not_mem (used : List String) (filename : String) :
    ∀ fuel n, (∃ i, i < fuel ∧ candName filename (n + i) ∉ used) →
      resolveGo used filename fuel n ∉ used := by
  intro fuel
  induction fuel with
  | zero => intro n ⟨i, hi, _⟩; omega
  | succ f ih =>
    intro n ⟨i, hi, hfree⟩
    simp only [resolveGo]
    by_cases h : candName filename n ∈ used
    · rw [if_pos h]
      apply ih (n + 1)
      cases i with
      | zero => exact absurd h (by simpa using hfree)
      | succ j =>
        refine ⟨j, by omega, ?_⟩
        have he : n + (j + 1) = n + 1 + j := by omega
        rwa [he] at hfree
    · rw [if_neg h]
      exact h

theorem getUniqueName_result (scope : NameScope) (folder filename : String) (k : Nat)
    (hk : k < (scope folder).length + 2)
    (hmem : ∀ i, i < k → candName filename i ∈ scope folder)
    (hfree : candName filename k ∉ scope folder) :
    (getUniqueName scope folder filename).1 = candName filename k := by
  show resolveGo (scope folder) filename ((scope folder).length + 2) 0 = _
  have h := resolveGo_spec_exact (scope folder) filename ((scope folder).length + 2) k 0
    (fun i hi => by simpa using hmem i hi) (by simpa using hfree) hk
  simpa using h

theorem repeatedScope_folder (folder filename : String) :
    ∀ n, repeatedScope folder filename n folder =
      ((List.range n).reverse).map (candName filename) := by
  intro n
  induction n with
  | zero => rfl
  | succ k ih =>
    have hmemiff : ∀ x, x ∈ repeatedScope folder filename k folder ↔
        ∃ i, i < k ∧ candName filename i = x := by
      intro x
      rw [ih]
      simp [List.mem_map, List.mem_reverse, List.mem_range]
    have hlen : (repeatedScope folder filename k folder).length = k := by
      rw [ih]; simp
    have hres : (getUniqueName (repeatedScope folder filename k) folder filename).1 =
        candName filename k := by
      apply getUniqueName_result
      · omega
      · intro i hi
        exact (hmemiff _).mpr ⟨i, hi, rfl⟩
      · intro hmem
        obtain ⟨i, hi, heq⟩ := (hmemiff _).mp hmem
        have := candName_injective filename heq
        omega
    show (getUniqueName (repeatedScope folder filename k) folder filename).2 folder = _
    have hupd : (getUniqueName (repeatedScope folder filename k) folder filename).2 folder =
        (getUniqueName (repeatedScope folder filename k) folder filename).1 ::
          repeatedScope folder filename k folder := by
      show (if folder = folder then _ else _) = _
      rw [if_pos rfl]
      rfl
    rw [hupd, hres, ih, List.range_succ]
    simp

/-- Claim C6: `getUniqueName` returns a name not previously reserved in
the requested folder of the scope and reserves it there; and when the same
candidate name is requested repeatedly in one folder starting from an
empty scope, the n-th colliding request returns the candidate's base name
(its `.pdf` suffix stripped) suffixed with `_(n)` and `.pdf`. -/
theorem claim6_unique_naming (scope : NameScope) (folder filename : String) :
    ((getUniqueName scope folder filename).1 ∉ scope folder ∧
      (getUniqueName scope folder filename).1 ∈
        (getUniqueName scope folder filename).2 folder) ∧
    (∀ n, 1 ≤ n →
      (getUniqueName (repeatedScope folder filename n) folder filename).1 =
        stripPdfExt filename ++ "_(" ++ Nat.repr n ++ ").pdf") := by
  constructor
  · constructor
    · obtain ⟨i, hi, hfree⟩ := exists_free_cand (scope folder) filename
      show resolveGo (scope folder) filename ((scope folder).length + 2) 0 ∉ scope folder
      exact resolveGo_not_mem (scope folder) filename ((scope folder).length + 2) 0
        ⟨i, hi, by simpa using hfree⟩
    · show (getUniqueName scope folder filename).1 ∈ (if folder = folder then _ else _)
      rw [if_pos rfl]
      exact List.mem_cons_self _ _
  · intro n hn
    have hmemiff : ∀ x, x ∈ repeatedScope folder filename n folder ↔
        ∃ i, i < n ∧ candName filename i = x := by
      intro x
      rw [repeatedScope_folder]
      simp [List.mem_map, List.mem_reverse, List.mem_range]
    have hlen : (repeatedScope folder filename n folder).length = n := by
      rw [repeatedScope_folder]; simp
    have hres : (getUniqueName (repeatedScope folder filename n) folder filename).1 =
        candName filename n := by
      apply getUniqueName_result
      · omega
      · intro i hi
        exact (hmemiff _).mpr ⟨i, hi, rfl⟩
      · intro hmem
        obtain ⟨i, hi, heq⟩ := (hmemiff _).mp hmem
        have := candName_injective filename heq
        omega
    rw [hres]
    cases n with
    | zero => omega
    | succ k => rfl

/-- Witness for C6 at the spec's example: folder `"2024-01-01"`, candidate
`"X.pdf"` — a fresh request yields an unreserved, then reserved name, and
the first colliding request yields `"X_(1).pdf"`. -/
theorem claim6_witness :
    ((getUniqueName NameScope.empty "2024-01-01" "X.pdf").1 ∉
        NameScope.empty "2024-01-01" ∧
      (getUniqueName NameScope.empty "2024-01-01" "X.pdf").1 ∈
        (getUniqueName NameScope.empty "2024-01-01" "X.pdf").2 "2024-01-01") ∧
    (getUniqueName (repeatedScope "2024-01-01" "X.pdf" 1) "2024-01-01" "X.pdf").1 =
      "X_(1).pdf" := by
  have h := claim6_unique_naming NameScope.empty "2024-01-01" "X.pdf"
  refine ⟨h.1, ?_⟩
  have h2 := h.2 1 (by decide)
  rw [h2]
  decide

end SmartPdfSplitter
